import Mathlib

/- Verification of the TeamFinder backend: the user model, the
event-creation controller, the teammate ranking search and the team
membership engine. JavaScript string operations are embedded as
kernel-computable functions on character lists. -/

namespace TeamFinder

/-- Character-wise lowercase, modelling the JavaScript toLowerCase call on
the ASCII strings this application handles. -/
def jsToLower (s : String) : String :=
  ⟨s.data.map Char.toLower⟩

/-- Whitespace trimming from both ends, modelling the JavaScript trim call. -/
def jsTrim (s : String) : String :=
  ⟨((s.data.dropWhile Char.isWhitespace).reverse.dropWhile Char.isWhitespace).reverse⟩

/-- Split a character list at every occurrence of the separator, modelling
the JavaScript split call with a single-character separator; the empty
string yields one empty field. -/
def splitOnChar (sep : Char) : List Char → List (List Char)
  | [] => [[]]
  | c :: rest =>
    let r := splitOnChar sep rest
    if c = sep then [] :: r
    else
      match r with
      | [] => [[c]]
      | h :: t => (c :: h) :: t

/-- Split a string, trim every field and drop the empty fields: the
split, map-trim, filter pipeline used by the event controller. -/
def splitTrimFilter (sep : Char) (s : String) : List String :=
  ((splitOnChar sep s.data).map (fun cs => jsTrim ⟨cs⟩)).filter (fun c => c != "")

/-! ## User model, from the mongoose schema in `models/User.js` -/

/-- Stats sub-document of the user schema: two numeric fields, each with
default 0 and validator min 0. -/
structure UserStats where
  eventsParticipated : Int
  eventsWon : Int
deriving DecidableEq

/-- User document as declared by the user schema. Fields the schema does
not require are `Option`; `v` stands for the mongoose `__v` version key. -/
structure UserDoc where
  name : String
  email : String
  passwordHash : String
  role : String
  course : Option String
  branch : Option String
  year : Option String
  phone : Option String
  skills : List String
  achievements : List String
  stats : UserStats
  refreshToken : Option String
  v : Int
deriving DecidableEq

/-- Schema default for stats: both counters start at 0. -/
def userStatsDefault : UserStats :=
  { eventsParticipated := 0, eventsWon := 0 }

/-- User document created at registration with every field the caller does
not supply left at its schema default: role student, empty skill and
achievement arrays, zero stats, null refresh token. -/
def newUserDoc (name email passwordHash : String) : UserDoc :=
  { name := name, email := email, passwordHash := passwordHash,
    role := "student", course := none, branch := none, year := none,
    phone := none, skills := [], achievements := [],
    stats := userStatsDefault, refreshToken := none, v := 0 }

/-- Email matcher for the schema regex: no whitespace anywhere, an at-sign
with at least one character before it, and a later dot with at least one
character between the at-sign and the dot and at least one after the dot. -/
def validEmail (s : String) : Bool :=
  let cs := s.data
  cs.all (fun c => !c.isWhitespace) &&
    (List.range cs.length).any (fun i =>
      (List.range cs.length).any (fun j =>
        decide (1 ≤ i) && decide (i + 1 < j) && decide (j + 1 < cs.length) &&
          (cs.getD i ' ' == '@') && (cs.getD j ' ' == '.')))

/-- Characters the schema phone regex admits: digits, whitespace, plus,
minus and parentheses. -/
def validPhoneChar (c : Char) : Bool :=
  c.isDigit || c == '+' || c == '-' || c == '(' || c == ')' || c.isWhitespace

/-- Phone matcher for the schema regex: 7 to 20 admissible characters. -/
def validPhone (s : String) : Bool :=
  decide (7 ≤ s.length) && decide (s.length ≤ 20) && s.data.all validPhoneChar

/-- Setters declared on the user schema (trim on the string fields,
lowercase on email), applied by mongoose before validation. -/
def applySetters (u : UserDoc) : UserDoc :=
  { u with name := jsTrim u.name, email := jsToLower (jsTrim u.email),
           course := u.course.map jsTrim, branch := u.branch.map jsTrim,
           year := u.year.map jsTrim, phone := u.phone.map jsTrim }

/-- Validators declared on the user schema, run at save time: name length
2 to 100, email regex, password hash at least 6 characters, role enum,
length caps on the optional profile fields, at most 50 skills, at most 50
achievements, non-negative stats. -/
def userSchemaValidate (u : UserDoc) : Bool :=
  decide (2 ≤ u.name.length) && decide (u.name.length ≤ 100) &&
  validEmail u.email &&
  decide (6 ≤ u.passwordHash.length) &&
  (u.role == "student" || u.role == "admin") &&
  (match u.course with | none => true | some c => decide (c.length ≤ 100)) &&
  (match u.branch with | none => true | some b => decide (b.length ≤ 100)) &&
  (match u.year with | none => true | some y => decide (y.length ≤ 20)) &&
  (match u.phone with
    | none => true
    | some p => decide (p.length ≤ 20) && validPhone p) &&
  decide (u.skills.length ≤ 50) &&
  decide (u.achievements.length ≤ 50) &&
  decide (0 ≤ u.stats.eventsParticipated) &&
  decide (0 ≤ u.stats.eventsWon)

/-- Saving a user document: apply the schema setters, then persist exactly
when every validator passes. -/
def persistUser (u : UserDoc) : Option UserDoc :=
  let w := applySetters u
  if userSchemaValidate w then some w else none

/-- Shape of the JSON the user model serializes to: everything except
passwordHash, refreshToken and the version key. -/
structure SerializedUser where
  name : String
  email : String
  role : String
  course : Option String
  branch : Option String
  year : Option String
  phone : Option String
  skills : List String
  achievements : List String
  stats : UserStats
deriving DecidableEq

/-- The toJSON transform of the user schema, which deletes passwordHash,
refreshToken and the version key from the serialized output. -/
def userToJSON (u : UserDoc) : SerializedUser :=
  { name := u.name, email := u.email, role := u.role, course := u.course,
    branch := u.branch, year := u.year, phone := u.phone,
    skills := u.skills, achievements := u.achievements, stats := u.stats }

/-- Concrete user document that passes every schema validator. -/
def goodUser : UserDoc :=
  { name := "Al Ice", email := "alice@mail.com", passwordHash := "secret",
    role := "student", course := none, branch := none, year := none,
    phone := none, skills := ["react"], achievements := [],
    stats := { eventsParticipated := 3, eventsWon := 1 },
    refreshToken := none, v := 0 }

/-- Concrete user document with 51 skills, exceeding the schema cap. -/
def overloadedUser : UserDoc :=
  { goodUser with skills := List.replicate 51 "x" }

/-! ## Event creation, from the createEvent controller in
`controllers/eventController.js` -/

/-- Request body of the event-creation endpoint as the controller reads
it: each field is either absent or a string. -/
structure CreateEventBody where
  title : Option String
  description : Option String
  categories : Option String
  rules : Option String
  teamSizeMin : Option String
  teamSizeMax : Option String
deriving DecidableEq

/-- JavaScript falsiness of an absent-or-string value: undefined and the
empty string are the falsy cases. -/
def strFalsy : Option String → Bool
  | none => true
  | some s => s == ""

/-- Numeric value of a leading run of decimal digits. -/
def digitsVal : List Char → Nat → Nat
  | [], acc => acc
  | c :: cs, acc => if c.isDigit then digitsVal cs (10 * acc + (c.toNat - 48)) else acc

/-- The JavaScript parseInt call on an optional string: trim, accept an
optional sign, then read a decimal digit run; none models NaN. -/
def parseIntJS : Option String → Option Int
  | none => none
  | some s =>
    match (jsTrim s).data with
    | '-' :: c :: cs => if c.isDigit then some (-(digitsVal (c :: cs) 0 : Int)) else none
    | '+' :: c :: cs => if c.isDigit then some ((digitsVal (c :: cs) 0 : Int)) else none
    | c :: cs => if c.isDigit then some ((digitsVal (c :: cs) 0 : Int)) else none
    | [] => none

/-- The JavaScript or-default idiom around parseInt: NaN and 0 both fall
back to the default value. -/
def jsOrDefault (v : Option Int) (d : Int) : Int :=
  match v with
  | none => d
  | some n => if n = 0 then d else n

/-- Team-size bounds stored on an event. -/
structure EventTeamSize where
  min : Int
  max : Int
deriving DecidableEq

/-- Event document assembled by the controller, restricted to the fields
the claims concern. -/
structure EventDoc where
  title : String
  description : String
  categories : List String
  rules : List String
  teamSize : EventTeamSize
deriving DecidableEq

/-- Modelled from the spec: the Event mongoose model (`models/Event.js`)
is not among the source files; the spec data model states
`teamSize: { min: positive integer, max: integer ≥ min }`, so save-time
schema validation accepts exactly the documents whose bounds satisfy that
constraint. -/
def eventSchemaValid (ev : EventDoc) : Bool :=
  decide (1 ≤ ev.teamSize.min) && decide (ev.teamSize.min ≤ ev.teamSize.max)

/-- Result of the createEvent controller: a 400 response, a save-time
validation error, or the persisted event. -/
inductive CreateEventResult where
  | badRequest (msg : String)
  | validationError
  | created (ev : EventDoc)
deriving DecidableEq

/-- Event document the createEvent controller assembles from a request
that passed the 400 check: categories are comma-split, trimmed and
filtered; rules newline-split, trimmed and filtered when present, empty
otherwise; the team-size bounds parsed with defaults 1 and 6. -/
def builtEvent (req : CreateEventBody) : EventDoc :=
  { title := req.title.getD "", description := req.description.getD "",
    categories := splitTrimFilter ',' (req.categories.getD ""),
    rules := if strFalsy req.rules then []
             else splitTrimFilter '\n' (req.rules.getD ""),
    teamSize := { min := jsOrDefault (parseIntJS req.teamSizeMin) 1,
                  max := jsOrDefault (parseIntJS req.teamSizeMax) 6 } }

/-- The createEvent controller: reject with 400 when title, description or
categories is missing or empty; otherwise assemble the document and save
it, which runs schema validation. -/
def createEvent (req : CreateEventBody) : CreateEventResult :=
  if strFalsy req.title || strFalsy req.description || strFalsy req.categories then
    .badRequest "Title, description, and categories are required"
  else if eventSchemaValid (builtEvent req) then .created (builtEvent req)
  else .validationError

/-- Concrete well-formed event-creation request. -/
def sampleEventReq : CreateEventBody :=
  { title := some "Hack", description := some "desc",
    categories := some "AI, Web", rules := some "be kind\n\n play fair",
    teamSizeMin := some "2", teamSizeMax := some "4" }

/-- Event the sample request produces. -/
def sampleEvent : EventDoc :=
  { title := "Hack", description := "desc", categories := ["AI", "Web"],
    rules := ["be kind", "play fair"],
    teamSize := { min := 2, max := 4 } }

/-- Concrete request with an empty title. -/
def emptyTitleReq : CreateEventBody :=
  { title := some "", description := some "d", categories := some "c",
    rules := none, teamSizeMin := none, teamSizeMax := none }

/-! ## Teammate ranking search, modelled from the spec (the user search
controller is not among the source files) -/

/-- Modelled from the spec: candidate record the ranking search reads
from the User Directory. -/
structure Candidate where
  id : Nat
  skills : List String
  eventsParticipated : Nat
deriving DecidableEq

/-- Normalization of a skill string: trim whitespace and compare
case-insensitively. -/
def normalizeSkill (s : String) : String :=
  jsToLower (jsTrim s)

/-- Modelled from the spec: the match score of a candidate against a set
of normalized query skills is the size of the intersection of the
deduplicated normalized user skills with the query set. -/
def matchScore (querySkills : List String) (u : Candidate) : Nat :=
  ((u.skills.map normalizeSkill).eraseDups.filter
    (fun s => querySkills.contains s)).length

/-- Ranking order on scored candidates: match score descending, then
eventsParticipated descending, then id ascending. -/
def rankLE (a b : Candidate × Nat) : Prop :=
  b.2 < a.2 ∨ (a.2 = b.2 ∧ (b.1.eventsParticipated < a.1.eventsParticipated ∨
    (a.1.eventsParticipated = b.1.eventsParticipated ∧ a.1.id ≤ b.1.id)))

instance : DecidableRel rankLE := fun a b => by
  unfold rankLE
  infer_instance

instance : IsTotal (Candidate × Nat) rankLE :=
  ⟨by intro a b; unfold rankLE; omega⟩

instance : IsTrans (Candidate × Nat) rankLE :=
  ⟨by intro a b c; unfold rankLE; omega⟩

/-- Modelled from the spec: the ranked teammate search. Exclude the
requesting user, score every candidate (score zero when the query is
empty, the match score otherwise), drop zero-score candidates when the
query is non-empty, sort by the ranking order and truncate to the limit. -/
def search (users : List Candidate) (querySkills : List String)
    (excludeUserId : Nat) (lim : Nat) : List (Candidate × Nat) :=
  let scored := (users.filter (fun u => u.id != excludeUserId)).map
    (fun u => (u, if querySkills.isEmpty then 0 else matchScore querySkills u))
  let kept := if querySkills.isEmpty then scored
    else scored.filter (fun p => decide (0 < p.2))
  (List.insertionSort rankLE kept).take lim

/-- First candidate of the ranking example in the spec. -/
def searchU1 : Candidate :=
  { id := 1, skills := ["Python", "Go"], eventsParticipated := 3 }

/-- Second candidate of the ranking example in the spec. -/
def searchU2 : Candidate :=
  { id := 2, skills := ["react", "python"], eventsParticipated := 1 }

/-! ## Team membership engine, modelled from the spec (the team
controller and team model are not among the source files) -/

/-- Team-size bounds an event supplies to the engine. -/
structure TeamSize where
  min : Nat
  max : Nat
deriving DecidableEq

/-- Modelled from the spec: a stored team record. -/
structure Team where
  id : Nat
  eventId : Nat
  name : String
  leaderId : Nat
  members : List Nat
  pendingInvites : List Nat
deriving DecidableEq

/-- Error kinds of the membership engine. -/
inductive TFErr where
  | notFound
  | conflict
  | permissionDenied
  | invalidArgument
deriving DecidableEq

/-- Modelled from the spec: the state the membership engine owns (teams
and a fresh-id counter) together with the read-only event bounds and user
directory it consults. -/
structure EngineState where
  events : List (Nat × TeamSize)
  users : List Nat
  teams : List Team
  nextId : Nat
deriving DecidableEq

/-- Event bounds lookup. -/
def lookupBounds (st : EngineState) (e : Nat) : Option TeamSize :=
  (st.events.find? (fun p => p.1 == e)).map (fun p => p.2)

/-- Team lookup by id. -/
def findTeam (st : EngineState) (tid : Nat) : Option Team :=
  st.teams.find? (fun t => t.id == tid)

/-- Whether a user is on some team bound to the event. -/
def onTeamForEvent (st : EngineState) (u e : Nat) : Prop :=
  ∃ t ∈ st.teams, t.eventId = e ∧ u ∈ t.members

instance (st : EngineState) (u e : Nat) : Decidable (onTeamForEvent st u e) := by
  unfold onTeamForEvent
  infer_instance

/-- Whether a user is on a team bound to the event other than the given
team. -/
def onOtherTeamForEvent (st : EngineState) (u e tid : Nat) : Prop :=
  ∃ t ∈ st.teams, t.id ≠ tid ∧ t.eventId = e ∧ u ∈ t.members

instance (st : EngineState) (u e tid : Nat) :
    Decidable (onOtherTeamForEvent st u e tid) := by
  unfold onOtherTeamForEvent
  infer_instance

/-- Replace the team with the given id by its image under the update. -/
def updTeams (ts : List Team) (tid : Nat) (f : Team → Team) : List Team :=
  ts.map (fun u => if u.id = tid then f u else u)

/-- Modelled from the spec: createTeam checks that the event exists, the
name is non-empty and the creator is on no team for the event, then
creates a fresh team whose only member and leader is the creator. -/
def createTeam (st : EngineState) (eventId leaderId : Nat) (name : String) :
    Except TFErr EngineState :=
  match lookupBounds st eventId with
  | none => .error .notFound
  | some _ =>
    if name = "" then .error .invalidArgument
    else if onTeamForEvent st leaderId eventId then .error .conflict
    else .ok { st with
      teams := { id := st.nextId, eventId := eventId, name := name,
                 leaderId := leaderId, members := [leaderId],
                 pendingInvites := [] } :: st.teams,
      nextId := st.nextId + 1 }

/-- Modelled from the spec: any current member may invite; the invitee
must exist, must not already be a member or invitee of this team, and
must not be on another team for the same event; capacity is not checked
at invite time. -/
def invite (st : EngineState) (tid inviterId inviteeId : Nat) :
    Except TFErr EngineState :=
  match findTeam st tid with
  | none => .error .notFound
  | some t =>
    if inviteeId ∈ st.users then
      if inviterId ∈ t.members then
        if inviteeId ∈ t.members then .error .conflict
        else if inviteeId ∈ t.pendingInvites then .error .conflict
        else if onOtherTeamForEvent st inviteeId t.eventId tid then .error .conflict
        else .ok { st with teams := (updTeams st.teams tid
          (fun u => { u with pendingInvites := inviteeId :: u.pendingInvites })) }
      else .error .conflict
    else .error .notFound

/-- Modelled from the spec: join consumes a pending invite, enforcing the
hard capacity cap and re-checking the one-team-per-event rule, then moves
the user from pendingInvites to members atomically. -/
def joinTeam (st : EngineState) (tid userId : Nat) : Except TFErr EngineState :=
  match findTeam st tid with
  | none => .error .notFound
  | some t =>
    match lookupBounds st t.eventId with
    | none => .error .notFound
    | some b =>
      if userId ∈ t.pendingInvites then
        if t.members.length < b.max then
          if onOtherTeamForEvent st userId t.eventId tid then .error .conflict
          else .ok { st with teams := (updTeams st.teams tid
            (fun u => { u with
              pendingInvites := u.pendingInvites.filter (fun x => x != userId),
              members := u.members ++ [userId] })) }
        else .error .conflict
      else .error .conflict

/-- Modelled from the spec: decline removes a pending invite and changes
nothing else. -/
def decline (st : EngineState) (tid userId : Nat) : Except TFErr EngineState :=
  match findTeam st tid with
  | none => .error .notFound
  | some t =>
    if userId ∈ t.pendingInvites then
      .ok { st with teams := (updTeams st.teams tid
        (fun u => { u with
          pendingInvites := u.pendingInvites.filter (fun x => x != userId) })) }
    else .error .conflict

/-- Modelled from the spec: leave removes a member; the leader may not
leave while other members remain, and a leader who is the last member
dissolves the team. -/
def leave (st : EngineState) (tid userId : Nat) : Except TFErr EngineState :=
  match findTeam st tid with
  | none => .error .notFound
  | some t =>
    if userId ∈ t.members then
      if userId = t.leaderId then
        if t.members.length = 1 then
          .ok { st with teams := st.teams.filter (fun u => u.id != tid) }
        else .error .conflict
      else
        .ok { st with teams := (updTeams st.teams tid
          (fun u => { u with members := u.members.filter (fun x => x != userId) })) }
    else .error .conflict

/-- Modelled from the spec: only the leader may delete; deletion removes
the team together with its pending invites. -/
def deleteTeam (st : EngineState) (tid requesterId : Nat) :
    Except TFErr EngineState :=
  match findTeam st tid with
  | none => .error .notFound
  | some t =>
    if requesterId = t.leaderId then
      .ok { st with teams := st.teams.filter (fun u => u.id != tid) }
    else .error .permissionDenied

/-- Team lookup as the read endpoint returns it. -/
def getById (st : EngineState) (tid : Nat) : Except TFErr Team :=
  match findTeam st tid with
  | none => .error .notFound
  | some t => .ok t

/-- One request against the membership engine. -/
inductive Op where
  | create (eventId leaderId : Nat) (name : String)
  | invite (tid inviterId inviteeId : Nat)
  | join (tid userId : Nat)
  | decline (tid userId : Nat)
  | leave (tid userId : Nat)
  | delete (tid requesterId : Nat)
deriving DecidableEq

/-- Run one engine operation. -/
def runOp (op : Op) (st : EngineState) : Except TFErr EngineState :=
  match op with
  | .create e l n => createTeam st e l n
  | .invite tid a b => invite st tid a b
  | .join tid u => joinTeam st tid u
  | .decline tid u => decline st tid u
  | .leave tid u => leave st tid u
  | .delete tid r => deleteTeam st tid r

/-- Stored state after an operation: the new state on success, the
untouched previous state on failure. -/
def applyOp (op : Op) (st : EngineState) : EngineState :=
  match runOp op st with
  | .ok st2 => st2
  | .error _ => st

/-- Capacity invariant: no team exceeds the max bound of its event. -/
def capInv (st : EngineState) : Prop :=
  ∀ t ∈ st.teams, ∀ b, lookupBounds st t.eventId = some b →
    t.members.length ≤ b.max

/-- Number of teams bound to the event that list the user as a member. -/
def teamCount (st : EngineState) (u e : Nat) : Nat :=
  st.teams.countP (fun t => decide (t.eventId = e ∧ u ∈ t.members))

/-- One-team-per-event invariant: no user is a member of two teams bound
to the same event. -/
def oneTeamInv (st : EngineState) : Prop :=
  ∀ u e, teamCount st u e ≤ 1

/-- Team ids are pairwise distinct. -/
def idsNodup (st : EngineState) : Prop :=
  (st.teams.map Team.id).Nodup

/-- Every stored team id is below the fresh-id counter. -/
def idsFresh (st : EngineState) : Prop :=
  ∀ t ∈ st.teams, t.id < st.nextId

/-- Event bounds satisfy the data-model constraint of the spec. -/
def eventsWF (evs : List (Nat × TeamSize)) : Prop :=
  ∀ p ∈ evs, 1 ≤ p.2.min ∧ p.2.min ≤ p.2.max

instance (evs : List (Nat × TeamSize)) : Decidable (eventsWF evs) := by
  unfold eventsWF
  infer_instance

/-- Engine well-formedness: sound bounds, distinct and fresh team ids,
the capacity bound and the one-team-per-event rule. -/
def WF (st : EngineState) : Prop :=
  eventsWF st.events ∧ idsNodup st ∧ idsFresh st ∧ capInv st ∧ oneTeamInv st

/-- States reachable from an empty engine over well-formed events. -/
inductive Reach (evs : List (Nat × TeamSize)) (us : List Nat) :
    EngineState → Prop where
  | init : eventsWF evs →
      Reach evs us { events := evs, users := us, teams := [], nextId := 0 }
  | step {st st2 : EngineState} (op : Op) : Reach evs us st →
      runOp op st = .ok st2 → Reach evs us st2

/-- Concrete event table: event 1 admits teams of one to three members. -/
def sampleEvents : List (Nat × TeamSize) :=
  [(1, { min := 1, max := 3 })]

/-- Concrete user directory. -/
def sampleUsers : List Nat :=
  [5, 7]

/-- Concrete initial engine state. -/
def engineInit : EngineState :=
  { events := sampleEvents, users := sampleUsers, teams := [], nextId := 0 }

/-- Concrete team led by user 5. -/
def sampleTeam : Team :=
  { id := 0, eventId := 1, name := "T", leaderId := 5, members := [5],
    pendingInvites := [] }

/-- Concrete engine state holding the sample team. -/
def engineWithTeam : EngineState :=
  { events := sampleEvents, users := sampleUsers, teams := [sampleTeam],
    nextId := 1 }

/-! ## Claims C7, C8, C10 -/

/-- C7: stats.eventsParticipated and stats.eventsWon are non-negative for
every persisted user, and both default to 0 on a user document created at
registration. -/
theorem C7_stats_nonneg :
    (∀ n e p : String, (newUserDoc n e p).stats.eventsParticipated = 0 ∧
      (newUserDoc n e p).stats.eventsWon = 0) ∧
    (∀ u w : UserDoc, persistUser u = some w →
      0 ≤ w.stats.eventsParticipated ∧ 0 ≤ w.stats.eventsWon) := by
  refine ⟨fun n e p => ⟨rfl, rfl⟩, fun u w h => ?_⟩
  simp only [persistUser] at h
  split at h
  case isTrue hv =>
    cases h
    have hs : 0 ≤ (applySetters u).stats.eventsParticipated ∧
        0 ≤ (applySetters u).stats.eventsWon := by
      simp only [userSchemaValidate, Bool.and_eq_true, decide_eq_true_eq] at hv
      tauto
    exact hs
  case isFalse => cases h

/-- C7 witness: the concrete valid user persists and its stored stats are
non-negative. -/
theorem C7_stats_nonneg_witness :
    0 ≤ (applySetters goodUser).stats.eventsParticipated ∧
      0 ≤ (applySetters goodUser).stats.eventsWon :=
  C7_stats_nonneg.2 goodUser (applySetters goodUser) (by decide)

/-- C8: the toJSON transform omits passwordHash, refreshToken and the
version key, so two user documents that differ only in those fields
produce identical serialized output. -/
theorem C8_toJSON_omits_secrets (u : UserDoc) (ph : String)
    (rt : Option String) (vv : Int) :
    userToJSON { u with passwordHash := ph, refreshToken := rt, v := vv } =
      userToJSON u :=
  rfl

/-- C10: every persisted user has at most 50 skills and at most 50
achievements, and a document exceeding either limit fails validation and
is not persisted. -/
theorem C10_skill_limit :
    (∀ u w : UserDoc, persistUser u = some w →
      w.skills.length ≤ 50 ∧ w.achievements.length ≤ 50) ∧
    (∀ u : UserDoc, 50 < u.skills.length ∨ 50 < u.achievements.length →
      persistUser u = none) := by
  constructor
  · intro u w h
    simp only [persistUser] at h
    split at h
    case isTrue hv =>
      cases h
      simp only [userSchemaValidate, Bool.and_eq_true, decide_eq_true_eq] at hv
      tauto
    case isFalse => cases h
  · intro u h
    simp only [persistUser]
    split
    case isTrue hv =>
      exfalso
      have hcap : (applySetters u).skills.length ≤ 50 ∧
          (applySetters u).achievements.length ≤ 50 := by
        simp only [userSchemaValidate, Bool.and_eq_true, decide_eq_true_eq] at hv
        tauto
      have hsk : (applySetters u).skills = u.skills := rfl
      have hac : (applySetters u).achievements = u.achievements := rfl
      rw [hsk, hac] at hcap
      omega
    case isFalse => rfl

/-- C10 witness: the concrete user with 51 skills is rejected. -/
theorem C10_skill_limit_witness : persistUser overloadedUser = none :=
  C10_skill_limit.2 overloadedUser (Or.inl (by decide))

/-! ## Claims C4, C9 -/

/-- C4: every event that event creation stores has team-size bounds
satisfying the data-model constraint: min is a positive integer and max
is at least min. -/
theorem C4_teamSize_bounds (req : CreateEventBody) (ev : EventDoc)
    (h : createEvent req = .created ev) :
    1 ≤ ev.teamSize.min ∧ ev.teamSize.min ≤ ev.teamSize.max := by
  simp only [createEvent] at h
  split at h
  · exact absurd h (by simp)
  · split at h
    case isTrue hv =>
      cases h
      simpa [eventSchemaValid, Bool.and_eq_true, decide_eq_true_eq] using hv
    case isFalse => exact absurd h (by simp)

/-- Helper for C9: the stored rules list equals the newline-split,
trimmed, filtered list when rules are present and is empty otherwise. -/
theorem builtEvent_rules (req : CreateEventBody) :
    (builtEvent req).rules = (match req.rules with
      | none => []
      | some r => splitTrimFilter '\n' r) := by
  show (if strFalsy req.rules then []
      else splitTrimFilter '\n' (req.rules.getD "")) = _
  rcases req.rules with _ | r
  · rfl
  · by_cases hr : r = ""
    · subst hr; decide
    · have hf : strFalsy (some r) = false := by
        simp [strFalsy, hr]
      rw [hf]
      simp [Option.getD]

/-- C4 witness: the sample request stores an event and its bounds satisfy
the constraint. -/
theorem C4_teamSize_bounds_witness :
    1 ≤ sampleEvent.teamSize.min ∧
      sampleEvent.teamSize.min ≤ sampleEvent.teamSize.max :=
  C4_teamSize_bounds sampleEventReq sampleEvent (by decide)

/-- C9: createEvent returns the 400 error whenever title, description or
categories is missing or empty, and any event it stores carries the
comma-split, trimmed, empty-dropped categories list and the
newline-split, trimmed, empty-dropped rules list, the latter empty when
rules are absent. -/
theorem C9_createEvent_validation (req : CreateEventBody) :
    ((strFalsy req.title ∨ strFalsy req.description ∨ strFalsy req.categories) →
      createEvent req =
        .badRequest "Title, description, and categories are required") ∧
    (∀ ev, createEvent req = .created ev →
      ev.categories = splitTrimFilter ',' (req.categories.getD "") ∧
      ev.rules = (match req.rules with
        | none => []
        | some r => splitTrimFilter '\n' r)) := by
  constructor
  · intro h
    simp only [createEvent]
    split
    · rfl
    case isFalse hcond =>
      exfalso
      simp only [Bool.or_eq_true, not_or] at hcond
      rcases h with h | h | h <;> simp [h] at hcond
  · intro ev h
    simp only [createEvent] at h
    split at h
    · exact absurd h (by simp)
    · split at h
      case isTrue => cases h; exact ⟨rfl, builtEvent_rules req⟩
      case isFalse => exact absurd h (by simp)

/-- C9 witness: the request with an empty title is rejected with the 400
message. -/
theorem C9_createEvent_validation_witness :
    createEvent emptyTitleReq =
      .badRequest "Title, description, and categories are required" :=
  (C9_createEvent_validation emptyTitleReq).1 (Or.inl (by decide))

/-! ## Claim C3 -/

/-- C3: for a non-empty query, every search result is a candidate from
the directory other than the excluded user and carries a positive match
score equal to the size of its normalized-skill intersection with the
query; the results are ordered by score descending with ties broken by
eventsParticipated descending then id ascending, and at most limit
results are returned. On the concrete example of the spec the result is
U2 with score 2 before U1 with score 1. -/
theorem C3_search_ranking :
    (∀ (users : List Candidate) (qs : List String) (ex lim : Nat),
      qs ≠ [] →
      (∀ p ∈ search users qs ex lim,
        p.1 ∈ users ∧ p.1.id ≠ ex ∧ p.2 = matchScore qs p.1 ∧ 0 < p.2) ∧
      (search users qs ex lim).Pairwise rankLE ∧
      (search users qs ex lim).length ≤ lim) ∧
    search [searchU1, searchU2] ["python", "react"] 999 10 =
      [(searchU2, 2), (searchU1, 1)] := by
  constructor
  · intro users qs ex lim hqs
    have hqe : qs.isEmpty = false := by
      cases qs
      · exact absurd rfl hqs
      · rfl
    refine ⟨?_, ?_, ?_⟩
    · intro p hp
      simp only [search, hqe, Bool.false_eq_true, if_false] at hp
      have hp1 := List.mem_of_mem_take hp
      have hp2 := (List.perm_insertionSort rankLE _).mem_iff.mp hp1
      rw [List.mem_filter] at hp2
      obtain ⟨hp3, hppos⟩ := hp2
      rw [List.mem_map] at hp3
      obtain ⟨u, hu, hup⟩ := hp3
      rw [List.mem_filter] at hu
      obtain ⟨humem, huid⟩ := hu
      subst hup
      refine ⟨humem, ?_, rfl, of_decide_eq_true hppos⟩
      simpa using huid
    · exact List.Pairwise.sublist (List.take_sublist _ _)
        (List.sorted_insertionSort rankLE _)
    · exact List.length_take_le _ _
  · decide

/-- C3 witness: the general part of the claim applied to the concrete
two-candidate directory and the non-empty query of the spec example. -/
theorem C3_search_ranking_witness :
    (∀ p ∈ search [searchU1, searchU2] ["python", "react"] 999 10,
      p.1 ∈ [searchU1, searchU2] ∧ p.1.id ≠ 999 ∧
        p.2 = matchScore ["python", "react"] p.1 ∧ 0 < p.2) ∧
    (search [searchU1, searchU2] ["python", "react"] 999 10).Pairwise rankLE ∧
    (search [searchU1, searchU2] ["python", "react"] 999 10).length ≤ 10 :=
  C3_search_ranking.1 [searchU1, searchU2] ["python", "react"] 999 10 (by decide)

/-! ## Engine lemmas -/

/-- Counting over a mapped list via a pointwise description of the
composed predicate. -/
theorem countP_map_congr {α : Type} (l : List α) (f : α → α) (p q : α → Bool)
    (h : ∀ x ∈ l, p (f x) = q x) : (l.map f).countP p = l.countP q := by
  induction l with
  | nil => rfl
  | cons a l ih =>
    simp only [List.map_cons, List.countP_cons]
    rw [ih (fun x hx => h x (List.mem_cons_of_mem a hx)),
      h a (List.mem_cons_self a l)]

/-- A found team is stored and has the looked-up id. -/
theorem findTeam_mem {st : EngineState} {tid : Nat} {t : Team}
    (h : findTeam st tid = some t) : t ∈ st.teams ∧ t.id = tid := by
  unfold findTeam at h
  refine ⟨List.mem_of_find?_eq_some h, ?_⟩
  have h2 := List.find?_some h
  simpa using h2

/-- With distinct ids, two stored teams with the same id are equal. -/
theorem team_eq_of_id_eq {st : EngineState} (hn : idsNodup st) {t t2 : Team}
    (ht : t ∈ st.teams) (ht2 : t2 ∈ st.teams) (hid : t.id = t2.id) : t = t2 :=
  List.inj_on_of_nodup_map hn ht ht2 hid

/-- A user on no team for the event is counted zero times. -/
theorem teamCount_eq_zero {st : EngineState} {u e : Nat}
    (h : ¬ onTeamForEvent st u e) : teamCount st u e = 0 := by
  unfold teamCount
  rw [List.countP_eq_zero]
  intro t ht
  simp only [decide_eq_true_eq]
  intro hc
  exact h ⟨t, ht, hc⟩

/-- With distinct ids, exactly one stored team carries a stored id. -/
theorem countP_id_eq_one {tid : Nat} : ∀ ts : List Team,
    (ts.map Team.id).Nodup → ∀ t0 ∈ ts, t0.id = tid →
    ts.countP (fun t => decide (t.id = tid)) = 1 := by
  intro ts
  induction ts with
  | nil => intro _ t0 h0; exact absurd h0 (List.not_mem_nil t0)
  | cons a ts ih =>
    intro hn t0 h0 hid
    have hn2 : a.id ∉ ts.map Team.id ∧ (ts.map Team.id).Nodup := by
      rw [List.map_cons, List.nodup_cons] at hn
      exact hn
    rw [List.countP_cons]
    rcases List.mem_cons.mp h0 with rfl | hmem
    · have hz : ts.countP (fun t => decide (t.id = tid)) = 0 := by
        rw [List.countP_eq_zero]
        intro t ht
        simp only [decide_eq_true_eq]
        intro hteq
        refine hn2.1 ?_
        rw [hid, ← hteq]
        exact List.mem_map_of_mem Team.id ht
      rw [hz]
      simp [hid]
    · have hne : ¬ a.id = tid := by
        intro haeq
        refine hn2.1 ?_
        rw [haeq, ← hid]
        exact List.mem_map_of_mem Team.id hmem
      rw [ih hn2.2 t0 hmem hid]
      simp [hne]

/-- Bounds returned by lookup come from the stored event table. -/
theorem lookupBounds_mem {st : EngineState} {e : Nat} {b : TeamSize}
    (h : lookupBounds st e = some b) : ∃ p ∈ st.events, p.2 = b := by
  unfold lookupBounds at h
  cases hf : st.events.find? (fun p => p.1 == e) with
  | none => rw [hf] at h; cases h
  | some p =>
    rw [hf] at h
    exact ⟨p, List.mem_of_find?_eq_some hf, Option.some.inj h⟩

/-- Over well-formed events, every looked-up max bound is at least one. -/
theorem lookupBounds_max_pos {st : EngineState} {e : Nat} {b : TeamSize}
    (hev : eventsWF st.events) (h : lookupBounds st e = some b) :
    1 ≤ b.max := by
  obtain ⟨p, hp, hpb⟩ := lookupBounds_mem h
  have h2 := hev p hp
  subst hpb
  omega

/-- Updates that preserve ids leave the id list unchanged. -/
theorem updTeams_id (ts : List Team) (tid : Nat) (f : Team → Team)
    (hf : ∀ u : Team, (f u).id = u.id) :
    (updTeams ts tid f).map Team.id = ts.map Team.id := by
  unfold updTeams
  rw [List.map_map]
  apply List.map_congr_left
  intro x hx
  by_cases h : x.id = tid
  · simp [Function.comp, h, hf]
  · simp [Function.comp, h]

/-- Members of an updated team list come from the original list. -/
theorem updTeams_mem {ts : List Team} {tid : Nat} {f : Team → Team} {t2 : Team}
    (h : t2 ∈ updTeams ts tid f) :
    ∃ u ∈ ts, t2 = if u.id = tid then f u else u := by
  unfold updTeams at h
  obtain ⟨u, hu, he⟩ := List.mem_map.mp h
  exact ⟨u, hu, he.symm⟩

/-- Well-formedness is preserved by updates that keep id, members and
eventId of every team (the invite and decline updates). -/
theorem WF_updTeams_pending {st : EngineState} (tid : Nat) (f : Team → Team)
    (hf_id : ∀ u : Team, (f u).id = u.id)
    (hf_m : ∀ u : Team, (f u).members = u.members)
    (hf_e : ∀ u : Team, (f u).eventId = u.eventId)
    (hwf : WF st) :
    WF { st with teams := updTeams st.teams tid f } := by
  obtain ⟨hev, hnd, hfr, hcap, hone⟩ := hwf
  refine ⟨hev, ?_, ?_, ?_, ?_⟩
  · show (List.map Team.id (updTeams st.teams tid f)).Nodup
    rw [updTeams_id st.teams tid f hf_id]
    exact hnd
  · intro t ht
    obtain ⟨u, hu, he⟩ := updTeams_mem ht
    subst he
    by_cases h2 : u.id = tid
    · rw [if_pos h2]
      show (f u).id < st.nextId
      rw [hf_id]
      exact hfr u hu
    · rw [if_neg h2]
      exact hfr u hu
  · intro t ht b hb
    have hbs : lookupBounds st t.eventId = some b := hb
    obtain ⟨u, hu, he⟩ := updTeams_mem ht
    subst he
    by_cases h2 : u.id = tid
    · rw [if_pos h2] at hbs ⊢
      show (f u).members.length ≤ b.max
      rw [hf_m]
      have hb2 : lookupBounds st u.eventId = some b := by
        rw [← hf_e u]
        exact hbs
      exact hcap u hu b hb2
    · rw [if_neg h2] at hbs ⊢
      exact hcap u hu b hbs
  · intro u e
    show (updTeams st.teams tid f).countP
      (fun t => decide (t.eventId = e ∧ u ∈ t.members)) ≤ 1
    unfold updTeams
    rw [countP_map_congr st.teams _ _
      (fun t => decide (t.eventId = e ∧ u ∈ t.members)) ?_]
    · have h2 := hone u e
      unfold teamCount at h2
      exact h2
    · intro x hx
      by_cases h2 : x.id = tid
      · simp [h2, hf_m, hf_e]
      · simp [h2]

/-- Well-formedness is preserved by dropping teams (team deletion and the
last-member leader leave). -/
theorem WF_filter {st : EngineState} (q : Team → Bool) (hwf : WF st) :
    WF { st with teams := st.teams.filter q } := by
  obtain ⟨hev, hnd, hfr, hcap, hone⟩ := hwf
  refine ⟨hev, ?_, ?_, ?_, ?_⟩
  · show ((st.teams.filter q).map Team.id).Nodup
    exact List.Nodup.sublist (List.Sublist.map Team.id (List.filter_sublist _)) hnd
  · intro t ht
    exact hfr t (List.mem_of_mem_filter ht)
  · intro t ht b hb
    have hbs : lookupBounds st t.eventId = some b := hb
    exact hcap t (List.mem_of_mem_filter ht) b hbs
  · intro u e
    show (st.teams.filter q).countP
      (fun t => decide (t.eventId = e ∧ u ∈ t.members)) ≤ 1
    have h2 := hone u e
    unfold teamCount at h2
    exact le_trans (List.Sublist.countP_le _ (List.filter_sublist _)) h2

/-- Well-formedness is preserved by removing a user from the member list
of one team (the non-leader leave update). -/
theorem WF_updTeams_shrink {st : EngineState} (tid uid : Nat) (hwf : WF st) :
    WF { st with teams := (updTeams st.teams tid
      (fun u => { u with members := u.members.filter (fun x => x != uid) })) } := by
  obtain ⟨hev, hnd, hfr, hcap, hone⟩ := hwf
  refine ⟨hev, ?_, ?_, ?_, ?_⟩
  · show (List.map Team.id (updTeams st.teams tid
      (fun u => { u with members := u.members.filter (fun x => x != uid) }))).Nodup
    rw [updTeams_id st.teams tid
      (fun u => { u with members := u.members.filter (fun x => x != uid) })
      (fun u => rfl)]
    exact hnd
  · intro t ht
    obtain ⟨u, hu, he⟩ := updTeams_mem ht
    subst he
    by_cases h2 : u.id = tid
    · rw [if_pos h2]
      exact hfr u hu
    · rw [if_neg h2]
      exact hfr u hu
  · intro t ht b hb
    have hbs : lookupBounds st t.eventId = some b := hb
    obtain ⟨u, hu, he⟩ := updTeams_mem ht
    subst he
    by_cases h2 : u.id = tid
    · rw [if_pos h2] at hbs ⊢
      show (u.members.filter (fun x => x != uid)).length ≤ b.max
      have hb2 : lookupBounds st u.eventId = some b := hbs
      exact le_trans (List.length_filter_le _ _) (hcap u hu b hb2)
    · rw [if_neg h2] at hbs ⊢
      exact hcap u hu b hbs
  · intro w e
    show (updTeams st.teams tid _).countP
      (fun t => decide (t.eventId = e ∧ w ∈ t.members)) ≤ 1
    unfold updTeams
    have h2 := hone w e
    unfold teamCount at h2
    refine le_trans ?_ h2
    rw [List.countP_map]
    apply List.countP_mono_left
    intro x hx
    by_cases hc : x.id = tid
    · simp only [Function.comp, if_pos hc]
      intro hdec
      have hprop : x.eventId = e ∧ w ∈ x.members.filter (fun y => y != uid) :=
        of_decide_eq_true hdec
      exact decide_eq_true ⟨hprop.1, List.mem_of_mem_filter hprop.2⟩
    · simp only [Function.comp, if_neg hc]
      exact id

/-- createTeam preserves well-formedness. -/
theorem createTeam_WF {st st2 : EngineState} {e l : Nat} {n : String}
    (hwf : WF st) (h : createTeam st e l n = .ok st2) : WF st2 := by
  obtain ⟨hev, hnd, hfr, hcap, hone⟩ := hwf
  unfold createTeam at h
  split at h
  · cases h
  · rename_i b hb
    split_ifs at h with hname hon <;> cases h
    refine ⟨hev, ?_, ?_, ?_, ?_⟩
    · show (List.map Team.id (_ :: st.teams)).Nodup
      rw [List.map_cons, List.nodup_cons]
      refine ⟨?_, hnd⟩
      intro hmem
      obtain ⟨t, ht, hidt⟩ := List.mem_map.mp hmem
      exact Nat.ne_of_lt (hfr t ht) hidt
    · intro t ht
      rcases List.mem_cons.mp ht with rfl | hmem
      · exact Nat.lt_succ_self _
      · exact Nat.lt_succ_of_lt (hfr t hmem)
    · intro t ht b2 hb2
      have hb2s : lookupBounds st t.eventId = some b2 := hb2
      rcases List.mem_cons.mp ht with rfl | hmem
      · have hb2e : lookupBounds st e = some b2 := hb2s
        rw [hb] at hb2e
        have hbb : b = b2 := Option.some.inj hb2e
        have hmax : b.max = b2.max := by rw [hbb]
        have h1 : 1 ≤ b.max := lookupBounds_max_pos hev hb
        show (1 : Nat) ≤ b2.max
        omega
      · exact hcap t hmem b2 hb2s
    · intro u e2
      show List.countP _ (_ :: st.teams) ≤ 1
      rw [List.countP_cons]
      split
      · rename_i hnew
        have hnew2 : e = e2 ∧ u = l := by
          simpa using of_decide_eq_true hnew
        obtain ⟨rfl, rfl⟩ := hnew2
        have h0 : teamCount st u e = 0 := teamCount_eq_zero hon
        unfold teamCount at h0
        omega
      · have h1 := hone u e2
        unfold teamCount at h1
        omega

/-- invite preserves well-formedness. -/
theorem invite_WF {st st2 : EngineState} {tid a b : Nat}
    (hwf : WF st) (h : invite st tid a b = .ok st2) : WF st2 := by
  unfold invite at h
  split at h
  · cases h
  · split_ifs at h with h1 h2 h3 h4 h5 <;> cases h
    exact WF_updTeams_pending tid _ (fun u => rfl) (fun u => rfl) (fun u => rfl) hwf

/-- join preserves well-formedness. -/
theorem joinTeam_WF {st st2 : EngineState} {tid uid : Nat}
    (hwf : WF st) (h : joinTeam st tid uid = .ok st2) : WF st2 := by
  obtain ⟨hev, hnd, hfr, hcap, hone⟩ := hwf
  unfold joinTeam at h
  split at h
  · cases h
  · rename_i t hft
    split at h
    · cases h
    · rename_i b hb
      split_ifs at h with h1 h2 h3 <;> cases h
      obtain ⟨htmem, htid⟩ := findTeam_mem hft
      refine ⟨hev, ?_, ?_, ?_, ?_⟩
      · show (List.map Team.id (updTeams st.teams tid
          (fun u => { u with
            pendingInvites := u.pendingInvites.filter (fun x => x != uid),
            members := u.members ++ [uid] }))).Nodup
        rw [updTeams_id st.teams tid
          (fun u => { u with
            pendingInvites := u.pendingInvites.filter (fun x => x != uid),
            members := u.members ++ [uid] })
          (fun u => rfl)]
        exact hnd
      · intro t2 ht2
        obtain ⟨u, hu, he⟩ := updTeams_mem ht2
        subst he
        by_cases hcase : u.id = tid
        · rw [if_pos hcase]
          exact hfr u hu
        · rw [if_neg hcase]
          exact hfr u hu
      · intro t2 ht2 b2 hb2
        have hb2s : lookupBounds st t2.eventId = some b2 := hb2
        obtain ⟨u, hu, he⟩ := updTeams_mem ht2
        subst he
        by_cases hcase : u.id = tid
        · have hut : u = t := team_eq_of_id_eq hnd hu htmem (by rw [hcase, htid])
          rw [if_pos hcase] at hb2s ⊢
          rw [hut] at hb2s ⊢
          have hb2t : lookupBounds st t.eventId = some b2 := hb2s
          rw [hb] at hb2t
          have hbb : b = b2 := Option.some.inj hb2t
          have hmax : b.max = b2.max := by rw [hbb]
          show (t.members ++ [uid]).length ≤ b2.max
          rw [List.length_append]
          simp only [List.length_cons, List.length_nil]
          omega
        · rw [if_neg hcase] at hb2s ⊢
          exact hcap u hu b2 hb2s
      · intro w e2
        show (updTeams st.teams tid _).countP
          (fun t2 => decide (t2.eventId = e2 ∧ w ∈ t2.members)) ≤ 1
        unfold updTeams
        by_cases hkey : w = uid ∧ e2 = t.eventId
        · obtain ⟨rfl, rfl⟩ := hkey
          rw [countP_map_congr st.teams _ _ (fun t2 => decide (t2.id = tid)) ?_]
          · rw [countP_id_eq_one st.teams hnd t htmem htid]
          · intro x hx
            by_cases h2x : x.id = tid
            · have hxt : x = t := team_eq_of_id_eq hnd hx htmem (by rw [h2x, htid])
              rw [if_pos h2x, hxt]
              simp [htid, List.mem_append]
            · rw [if_neg h2x]
              have hfx : ¬ (x.eventId = t.eventId ∧ w ∈ x.members) := by
                intro hcon
                exact h3 ⟨x, hx, h2x, hcon.1, hcon.2⟩
              simp [hfx, h2x]
        · rw [countP_map_congr st.teams _ _
            (fun t2 => decide (t2.eventId = e2 ∧ w ∈ t2.members)) ?_]
          · have h4 := hone w e2
            unfold teamCount at h4
            exact h4
          · intro x hx
            by_cases h2x : x.id = tid
            · have hxt : x = t := team_eq_of_id_eq hnd hx htmem (by rw [h2x, htid])
              rw [if_pos h2x, hxt]
              by_cases he2 : t.eventId = e2
              · have hwuid : ¬ w = uid := fun hw => hkey ⟨hw, by rw [← he2]⟩
                rw [decide_eq_decide]
                simp [List.mem_append, he2, hwuid]
              · rw [decide_eq_decide]
                simp [he2]
            · rw [if_neg h2x]

/-- decline preserves well-formedness. -/
theorem decline_WF {st st2 : EngineState} {tid uid : Nat}
    (hwf : WF st) (h : decline st tid uid = .ok st2) : WF st2 := by
  unfold decline at h
  split at h
  · cases h
  · split_ifs at h with h1 <;> cases h
    exact WF_updTeams_pending tid _ (fun u => rfl) (fun u => rfl) (fun u => rfl) hwf

/-- leave preserves well-formedness. -/
theorem leave_WF {st st2 : EngineState} {tid uid : Nat}
    (hwf : WF st) (h : leave st tid uid = .ok st2) : WF st2 := by
  unfold leave at h
  split at h
  · cases h
  · split_ifs at h with h1 h2 h3 <;> cases h
    · exact WF_filter _ hwf
    · exact WF_updTeams_shrink tid uid hwf

/-- deleteTeam preserves well-formedness. -/
theorem deleteTeam_WF {st st2 : EngineState} {tid r : Nat}
    (hwf : WF st) (h : deleteTeam st tid r = .ok st2) : WF st2 := by
  unfold deleteTeam at h
  split at h
  · cases h
  · split_ifs at h with h1 <;> cases h
    exact WF_filter _ hwf

/-- Every engine operation preserves well-formedness. -/
theorem runOp_WF {op : Op} {st st2 : EngineState}
    (hwf : WF st) (h : runOp op st = .ok st2) : WF st2 := by
  cases op with
  | create e l n => exact createTeam_WF hwf h
  | invite tid a b => exact invite_WF hwf h
  | join tid u => exact joinTeam_WF hwf h
  | decline tid u => exact decline_WF hwf h
  | leave tid u => exact leave_WF hwf h
  | delete tid r => exact deleteTeam_WF hwf h

/-- Every reachable engine state is well-formed. -/
theorem Reach_WF {evs : List (Nat × TeamSize)} {us : List Nat}
    {st : EngineState} (h : Reach evs us st) : WF st := by
  induction h with
  | init hev =>
    refine ⟨hev, ?_, ?_, ?_, ?_⟩
    · show (List.map Team.id []).Nodup
      simp
    · intro t ht
      exact absurd ht (List.not_mem_nil t)
    · intro t ht b hb
      exact absurd ht (List.not_mem_nil t)
    · intro u e
      show List.countP _ [] ≤ 1
      simp
  | step op hr hok ih => exact runOp_WF ih hok

/-! ## Claims C1, C2, C5, C6 -/

/-- C1: in every reachable engine state each team has at most
event.teamSize.max members, and a join against a full team fails with
Conflict instead of adding a member. -/
theorem C1_members_le_max (evs : List (Nat × TeamSize)) (us : List Nat)
    (st : EngineState) (h : Reach evs us st) :
    capInv st ∧
    (∀ tid uid t b, findTeam st tid = some t →
      lookupBounds st t.eventId = some b → b.max ≤ t.members.length →
      joinTeam st tid uid = .error .conflict) := by
  refine ⟨(Reach_WF h).2.2.2.1, ?_⟩
  intro tid uid t b hft hlb hfull
  simp only [joinTeam, hft, hlb]
  have hnlt : ¬ t.members.length < b.max := by omega
  by_cases hp : uid ∈ t.pendingInvites
  · rw [if_pos hp, if_neg hnlt]
  · rw [if_neg hp]

/-- C1 witness: the initial engine state over the sample events is
reachable and satisfies the claim. -/
theorem C1_members_le_max_witness :
    capInv engineInit ∧
    (∀ tid uid t b, findTeam engineInit tid = some t →
      lookupBounds engineInit t.eventId = some b → b.max ≤ t.members.length →
      joinTeam engineInit tid uid = .error .conflict) :=
  C1_members_le_max sampleEvents sampleUsers engineInit (Reach.init (by decide))

/-- C2: in every reachable engine state a user belongs to at most one
team per event, and every engine operation (createTeam, invite and join
included) preserves that invariant. -/
theorem C2_one_team_per_event (evs : List (Nat × TeamSize)) (us : List Nat)
    (st : EngineState) (h : Reach evs us st) :
    oneTeamInv st ∧
    (∀ op st2, runOp op st = .ok st2 → oneTeamInv st2) := by
  refine ⟨(Reach_WF h).2.2.2.2, ?_⟩
  intro op st2 h2
  exact (runOp_WF (Reach_WF h) h2).2.2.2.2

/-- C2 witness: the initial engine state over the sample events is
reachable and satisfies the claim. -/
theorem C2_one_team_per_event_witness :
    oneTeamInv engineInit ∧
    (∀ op st2, runOp op engineInit = .ok st2 → oneTeamInv st2) :=
  C2_one_team_per_event sampleEvents sampleUsers engineInit
    (Reach.init (by decide))

/-- C5: deleteTeam succeeds exactly for the leader: a non-leader request
fails with PermissionDenied, while the leader request removes the team so
that a subsequent getById returns NotFound. -/
theorem C5_deleteTeam_leader_only (st : EngineState) (tid requesterId : Nat)
    (t : Team) (h : findTeam st tid = some t) :
    (requesterId ≠ t.leaderId →
      deleteTeam st tid requesterId = .error .permissionDenied) ∧
    (requesterId = t.leaderId →
      deleteTeam st tid requesterId =
        .ok { st with teams := st.teams.filter (fun u => u.id != tid) } ∧
      getById { st with teams := st.teams.filter (fun u => u.id != tid) } tid =
        .error .notFound) := by
  constructor
  · intro hne
    simp only [deleteTeam, h]
    rw [if_neg hne]
  · intro heq
    have hfind : findTeam
        { st with teams := st.teams.filter (fun u => u.id != tid) } tid = none := by
      unfold findTeam
      rw [List.find?_eq_none]
      intro a ha
      have h2 := (List.mem_filter.mp ha).2
      simp only [bne_iff_ne] at h2
      simp [h2]
    refine ⟨?_, ?_⟩
    · simp only [deleteTeam, h]
      rw [if_pos heq]
    · simp only [getById, hfind]

/-- C5 witness: against the engine state holding the sample team, the
leader request removes the team and getById then reports NotFound. -/
theorem C5_deleteTeam_leader_only_witness :
    (5 ≠ sampleTeam.leaderId →
      deleteTeam engineWithTeam 0 5 = .error .permissionDenied) ∧
    (5 = sampleTeam.leaderId →
      deleteTeam engineWithTeam 0 5 =
        .ok { engineWithTeam with
          teams := engineWithTeam.teams.filter (fun u => u.id != 0) } ∧
      getById { engineWithTeam with
          teams := engineWithTeam.teams.filter (fun u => u.id != 0) } 0 =
        .error .notFound) :=
  C5_deleteTeam_leader_only engineWithTeam 0 5 sampleTeam (by decide)

/-- C6: every engine operation that returns a failure leaves the stored
state exactly as it was before the call. -/
theorem C6_error_atomicity (op : Op) (st : EngineState) (e : TFErr)
    (h : runOp op st = .error e) : applyOp op st = st := by
  simp [applyOp, h]

/-- C6 witness: deleting a missing team fails and the state is unchanged. -/
theorem C6_error_atomicity_witness :
    applyOp (Op.delete 0 9) engineInit = engineInit :=
  C6_error_atomicity (Op.delete 0 9) engineInit .notFound rfl

end TeamFinder
